import Mathlib

/-!
Verification of the cost-delta computation core of the cloudcost GitHub action:
the report indexing step, the delta engine and the markdown renderer.
Currency values are modelled as rational numbers; JavaScript Map and Set are
modelled as insertion-ordered association lists, matching their iteration
semantics, and the stable Array.prototype.sort is modelled by List.mergeSort.
-/

namespace CloudCost

/-- One priced resource of a cost report, as in the JSON shape consumed by the action. -/
structure ResourceItem where
  service : String
  logical_id : String
  monthly_usd : ℚ
  cdk_path : Option String
  notes : Option (List String)
deriving DecidableEq

/-- One stack of a cost report. -/
structure Stack where
  name : String
  total_monthly_usd : Option ℚ
  items : List ResourceItem
deriving DecidableEq

/-- A raw cost report produced by the external analyzer. -/
structure CostReport where
  grand_total_usd : Option ℚ
  «stacks» : List Stack
deriving DecidableEq

/-- Model of JavaScript Map.prototype.set on a string-keyed insertion-ordered
association list: overwriting an existing key keeps its original position,
a new key is appended at the end. -/
def mapSet {β : Type} (m : List (String × β)) (k : String) (v : β) : List (String × β) :=
  if m.any (fun p => p.1 == k) then
    m.map (fun p => if p.1 == k then (k, v) else p)
  else
    m ++ [(k, v)]

/-- Model of JavaScript Map.prototype.get: the value at the first (hence unique) entry with the key. -/
def mapGet {β : Type} (m : List (String × β)) (k : String) : Option β :=
  (m.find? (fun p => p.1 == k)).map (fun p => p.2)

/-- The keys of the association list, in insertion order, matching Map.prototype.keys. -/
def mapKeys {β : Type} (m : List (String × β)) : List String :=
  m.map (fun p => p.1)

/-- Model of JavaScript Set insertion: keeps the first occurrence position. -/
def setAdd (s : List String) (a : String) : List String :=
  if a ∈ s then s else s ++ [a]

/-- Model of building a JavaScript Set from a spread of sequences: first-occurrence order. -/
def setOfList (l : List String) : List String :=
  l.foldl setAdd []

/-- An indexed stack: identity-keyed item map plus the resolved stack total. -/
structure IndexedStack where
  name : String
  total : ℚ
  items : List (String × ResourceItem)
deriving DecidableEq

/-- An indexed report: stack-name-keyed map of indexed stacks plus the resolved grand total. -/
structure IndexedReport where
  «stacks» : List (String × IndexedStack)
  total : ℚ
deriving DecidableEq

/-- The identity key of a resource item, as built by the source: service, a pipe, logical id. -/
def itemKey (item : ResourceItem) : String :=
  item.service ++ "|" ++ item.logical_id

/-- The identity-keyed item map of one stack, built by iterated Map.set (last write wins). -/
def buildItemMap (items : List ResourceItem) : List (String × ResourceItem) :=
  items.foldl (fun m item => mapSet m (itemKey item) item) []

/-- Indexing of one stack, with a missing per-stack total defaulted to 0. -/
def indexStack (s : Stack) : IndexedStack :=
  { name := s.name
    total := s.total_monthly_usd.getD 0
    items := buildItemMap s.items }

/-- Indexing of a report: stack map keyed by name, and the grand total resolved as the
declared grand total when present, otherwise the sum of the indexed stack totals. -/
def indexReport (report : CostReport) : IndexedReport :=
  let «stacks» := report.stacks.foldl (fun m s => mapSet m s.name (indexStack s)) []
  let total :=
    match report.grand_total_usd with
    | some t => t
    | none => («stacks».map (fun p => p.2)).foldl (fun sum s => sum + s.total) 0
  { «stacks» := «stacks», total := total }

/-- The union of the stack names of two indexed reports, in Set spread order. -/
def stackNamesUnion (base head : IndexedReport) : List String :=
  setOfList (mapKeys base.stacks ++ mapKeys head.stacks)

/-- The item looked up at an identity key in an optionally present indexed stack. -/
def itemAt (os : Option IndexedStack) (key : String) : Option ResourceItem :=
  os.bind (fun s => mapGet s.items key)

/-- The cost resolved at an identity key, 0 when the stack or the item is absent. -/
def costOf (os : Option IndexedStack) (key : String) : ℚ :=
  ((itemAt os key).map (fun it => it.monthly_usd)).getD 0

/-- Model of JavaScript String.prototype.split with a one-character separator. -/
def splitOnChar (c : Char) : List Char → List (List Char)
  | [] => [[]]
  | x :: xs =>
    if x = c then [] :: splitOnChar c xs
    else
      match splitOnChar c xs with
      | [] => [[x]]
      | h :: t => (x :: h) :: t

/-- String-level wrapper of splitOnChar. -/
def jsSplit (c : Char) (s : String) : List String :=
  (splitOnChar c s.data).map (fun l => String.mk l)

/-- The destructuring of an identity key back into service and logical id, taking the
first two split segments, as the source does. -/
def splitKey (key : String) : String × String :=
  let parts := jsSplit '|' key
  (parts.getD 0 "", parts.getD 1 "")

/-- Model of the JavaScript logical-or on optional strings: the empty string is falsy. -/
def jsStrOr (a b : Option String) : Option String :=
  match a with
  | some s => if s = "" then b else some s
  | none => b

/-- The cdk-path resolution of the source: head path or-else base path or-else absent,
with JavaScript truthiness. -/
def resolveCdkPath (hp bp : Option String) : Option String :=
  jsStrOr hp (jsStrOr bp none)

/-- The notes resolution of the source: a present notes array (even empty) is truthy,
so head notes if the field is present, else base notes, else the empty list. -/
def resolveNotes (hn bn : Option (List String)) : List String :=
  match hn with
  | some l => l
  | none => bn.getD []

/-- One emitted item-level delta. -/
structure ItemDelta where
  service : String
  logicalId : String
  cdkPath : Option String
  base : ℚ
  head : ℚ
  diff : ℚ
  notes : List String
  stackName : String
deriving DecidableEq

/-- One emitted stack-level delta. -/
structure StackDelta where
  stackName : String
  base : ℚ
  head : ℚ
  diff : ℚ
  items : List ItemDelta
deriving DecidableEq

/-- The total delta of a computed delta. -/
structure TotalDelta where
  base : ℚ
  head : ℚ
  diff : ℚ
deriving DecidableEq

/-- The full structured delta. -/
structure Delta where
  total : TotalDelta
  «stacks» : List StackDelta
deriving DecidableEq

/-- The union of the identity keys of two optionally present indexed stacks, in Set spread order. -/
def itemKeyUnion (bs hs : Option IndexedStack) : List String :=
  setOfList
    ((match bs with | some s => mapKeys s.items | none => []) ++
     (match hs with | some s => mapKeys s.items | none => []))

/-- The item loop of computeDelta: for each key resolve both sides with a missing side
costed 0, skip the key when the diff is exactly 0, otherwise push the item delta. -/
def buildItems (bs hs : Option IndexedStack) (stackName : String) : List String → List ItemDelta
  | [] => []
  | key :: rest =>
    let baseItem := itemAt bs key
    let headItem := itemAt hs key
    let baseVal := (baseItem.map (fun it => it.monthly_usd)).getD 0
    let headVal := (headItem.map (fun it => it.monthly_usd)).getD 0
    let itemDiff := headVal - baseVal
    if itemDiff = 0 then buildItems bs hs stackName rest
    else
      { service := (splitKey key).1
        logicalId := (splitKey key).2
        cdkPath := resolveCdkPath (headItem.bind (fun it => it.cdk_path))
          (baseItem.bind (fun it => it.cdk_path))
        base := baseVal
        head := headVal
        diff := itemDiff
        notes := resolveNotes (headItem.bind (fun it => it.notes))
          (baseItem.bind (fun it => it.notes))
        stackName := stackName } :: buildItems bs hs stackName rest

/-- The comparator of the source item sort: descending absolute diff, as a total preorder. -/
def itemLe (a b : ItemDelta) : Bool :=
  decide (|b.diff| ≤ |a.diff|)

/-- The comparator of the source stack sort: descending absolute diff, as a total preorder. -/
def stackLe (a b : StackDelta) : Bool :=
  decide (|b.diff| ≤ |a.diff|)

/-- The stack delta assembled for one union stack name, with the per-stack stable item sort. -/
def stackDeltaFor (base head : IndexedReport) (stackName : String) : StackDelta :=
  let baseStack := mapGet base.stacks stackName
  let headStack := mapGet head.stacks stackName
  let baseTotal := (baseStack.map (fun s => s.total)).getD 0
  let headTotal := (headStack.map (fun s => s.total)).getD 0
  { stackName := stackName
    base := baseTotal
    head := headTotal
    diff := headTotal - baseTotal
    items := (buildItems baseStack headStack stackName
      (itemKeyUnion baseStack headStack)).mergeSort itemLe }

/-- The stack-delta sequence in union enumeration order, before the final sort. -/
def stacksDeltaUnsorted (base head : IndexedReport) : List StackDelta :=
  (stackNamesUnion base head).map (stackDeltaFor base head)

/-- The delta engine: index both raw reports, assemble the per-stack deltas over the
stack-name union, and stably sort them by descending absolute diff. -/
def computeDelta (baseReport headReport : CostReport) : Delta :=
  let base := indexReport baseReport
  let head := indexReport headReport
  { total := { base := base.total, head := head.total, diff := head.total - base.total }
    «stacks» := (stacksDeltaUnsorted base head).mergeSort stackLe }

/-- Model of Number.prototype.toFixed 2: round to the nearest hundredth, ties to the
larger value, then print with two decimals. -/
def ratToFixed2 (v : ℚ) : String :=
  let n : ℤ := ⌊v * 100 + 1 / 2⌋
  let a : ℕ := n.natAbs
  let frac : ℕ := a % 100
  (if n < 0 then "-" else "") ++ toString (a / 100) ++ "." ++
    (if frac < 10 then "0" else "") ++ toString frac

/-- Currency formatting of the source: a dollar sign followed by the value fixed to 2 decimals. -/
def formatUsd (value : ℚ) : String :=
  "$" ++ ratToFixed2 value

/-- The single data row of the totals table. -/
def amountRow (total : TotalDelta) : String :=
  "| Amount | " ++ formatUsd total.base ++ " | " ++ formatUsd total.head ++
    " | " ++ formatUsd total.diff ++ " |"

/-- One row of the top-resource-deltas table. -/
def itemRow (item : ItemDelta) : String :=
  "| " ++ item.stackName ++ " | " ++ item.service ++ " | " ++ item.logicalId ++
    " | " ++ formatUsd item.base ++ " | " ++ formatUsd item.head ++
    " | " ++ formatUsd item.diff ++ " |"

/-- The fixed header lines of the top-resource-deltas table. -/
def topTableHead : List String :=
  ["**Top resource deltas**", "",
   "| Stack | Service | Logical ID | Base | Head | Δ |",
   "|-------|---------|-----------|------|------|---|"]

/-- Model of Array.prototype.join with a newline separator. -/
def joinLines : List String → String
  | [] => ""
  | [a] => a
  | a :: b :: t => a ++ "\n" ++ joinLines (b :: t)

/-- The line sequence pushed by renderMarkdown: marker, heading, totals table, then the
top-resource-deltas table when the flattened, globally re-sorted, truncated item list
is non-empty. -/
def renderLines (delta : Delta) (commentTitle : String) : List String :=
  let allItems := delta.stacks.foldl (fun acc stack => acc ++ stack.items) []
  let topItems := (allItems.mergeSort itemLe).take 10
  ["<!-- cloudcostgh-comment -->", "## " ++ commentTitle, "",
   "**Total monthly cost**", "",
   "|        | Base | Head | Δ |",
   "|--------|------|------|---|",
   amountRow delta.total, ""] ++
  (if topItems.length > 0 then topTableHead ++ topItems.map itemRow ++ [""] else [])

/-- The renderer: the pushed lines joined with newlines. -/
def renderMarkdown (delta : Delta) (commentTitle : String) : String :=
  joinLines (renderLines delta commentTitle)

/-- Spec-side description of last-write-wins indexing: the last item of the source
iteration order whose identity key equals the given key. -/
def lastItemWith (items : List ResourceItem) (k : String) : Option ResourceItem :=
  items.foldl (fun acc it => if itemKey it = k then some it else acc) none

/-- A concrete stack item, first of a duplicate-key pair. -/
def dupItemA : ResourceItem :=
  { service := "EC2", logical_id := "i-1", monthly_usd := 10, cdk_path := none, notes := none }

/-- A concrete stack item, second of a duplicate-key pair, same identity key as dupItemA. -/
def dupItemB : ResourceItem :=
  { service := "EC2", logical_id := "i-1", monthly_usd := 99, cdk_path := none, notes := none }

theorem mapGet_cons {β : Type} (p : String × β) (m : List (String × β)) (k : String) :
    mapGet (p :: m) k = if p.1 = k then some p.2 else mapGet m k := by
  by_cases h : p.1 = k
  · simp [mapGet, List.find?_cons, h]
  · simp [mapGet, List.find?_cons, h]

theorem mapGet_replace_of_mem {β : Type} (m : List (String × β)) (k : String) (v : β)
    (h : m.any (fun p => p.1 == k) = true) :
    mapGet (m.map (fun p => if p.1 == k then (k, v) else p)) k = some v := by
  induction m with
  | nil => simp at h
  | cons p rest ih =>
    by_cases hp : p.1 = k
    · simp [mapGet_cons, hp]
    · have h' : rest.any (fun q => q.1 == k) = true := by
        simpa [List.any_cons, hp] using h
      simpa [mapGet_cons, hp] using ih h'

theorem mapGet_replace_of_ne {β : Type} (m : List (String × β)) (k k' : String) (v : β)
    (hk : k ≠ k') :
    mapGet (m.map (fun p => if p.1 == k' then (k', v) else p)) k = mapGet m k := by
  induction m with
  | nil => rfl
  | cons p rest ih =>
    rw [List.map_cons]
    by_cases hp : p.1 = k'
    · have h1 : (if (p.1 == k') = true then (k', v) else p) = (k', v) := by simp [hp]
      have hpk : ¬ p.1 = k := by rw [hp]; exact Ne.symm hk
      rw [h1, mapGet_cons, mapGet_cons, if_neg (Ne.symm hk), if_neg hpk]
      exact ih
    · have h1 : (if (p.1 == k') = true then (k', v) else p) = p := by simp [hp]
      by_cases hpk : p.1 = k
      · rw [h1, mapGet_cons, mapGet_cons, if_pos hpk, if_pos hpk]
      · rw [h1, mapGet_cons, mapGet_cons, if_neg hpk, if_neg hpk]
        exact ih

theorem mapGet_append_single {β : Type} (m : List (String × β)) (k k' : String) (v : β)
    (h : m.any (fun p => p.1 == k') = false) :
    mapGet (m ++ [(k', v)]) k = if k = k' then some v else mapGet m k := by
  induction m with
  | nil =>
    by_cases hk : k = k'
    · simp [mapGet_cons, hk, mapGet]
    · simp [mapGet_cons, hk, Ne.symm hk, mapGet]
  | cons p rest ih =>
    simp only [List.any_cons, Bool.or_eq_false_iff] at h
    have hp : ¬ p.1 = k' := by simpa using h.1
    rw [List.cons_append, mapGet_cons, mapGet_cons, ih h.2]
    by_cases hpk : p.1 = k
    · have hkk : ¬ k = k' := by rw [← hpk]; exact hp
      simp [hpk, hkk]
    · simp [hpk]

theorem mapGet_mapSet {β : Type} (m : List (String × β)) (k k' : String) (v : β) :
    mapGet (mapSet m k' v) k = if k = k' then some v else mapGet m k := by
  unfold mapSet
  by_cases hany : m.any (fun p => p.1 == k') = true
  · rw [if_pos hany]
    by_cases hk : k = k'
    · subst hk
      rw [if_pos rfl]
      exact mapGet_replace_of_mem m k v hany
    · rw [if_neg hk]
      exact mapGet_replace_of_ne m k k' v hk
  · rw [if_neg hany]
    exact mapGet_append_single m k k' v (Bool.eq_false_iff.mpr hany)

theorem mapGet_foldl_itemMap (items : List ResourceItem)
    (m : List (String × ResourceItem)) (k : String) :
    mapGet (items.foldl (fun m it => mapSet m (itemKey it) it) m) k =
      items.foldl (fun acc it => if itemKey it = k then some it else acc) (mapGet m k) := by
  induction items generalizing m with
  | nil => rfl
  | cons it rest ih =>
    simp only [List.foldl_cons]
    rw [ih, mapGet_mapSet]
    congr 1
    by_cases h : itemKey it = k
    · rw [if_pos h.symm, if_pos h]
    · rw [if_neg (Ne.symm h), if_neg h]

/-- C9: indexing a stack never fails on duplicate identity keys: the indexed entry at
any key is the last item, in the source iteration order, whose identity key equals it
(last-write-wins), and a concrete stack with two items sharing a key indexes to the
later one. The embedding is a total function, so no error can be raised. -/
theorem indexReport_duplicate_last_write_wins :
    (∀ (items : List ResourceItem) (k : String),
      mapGet (buildItemMap items) k = lastItemWith items k) ∧
    mapGet (buildItemMap [dupItemA, dupItemB]) "EC2|i-1" = some dupItemB := by
  constructor
  · intro items k
    unfold buildItemMap lastItemWith
    rw [mapGet_foldl_itemMap]
    rfl
  · decide

theorem mem_setAdd (s : List String) (a x : String) :
    x ∈ setAdd s a ↔ x ∈ s ∨ x = a := by
  unfold setAdd
  by_cases h : a ∈ s
  · rw [if_pos h]
    constructor
    · exact fun hx => Or.inl hx
    · rintro (hx | rfl)
      · exact hx
      · exact h
  · rw [if_neg h]
    simp [List.mem_append]

theorem nodup_setAdd (s : List String) (a : String) (h : s.Nodup) : (setAdd s a).Nodup := by
  unfold setAdd
  by_cases ha : a ∈ s
  · rwa [if_pos ha]
  · rw [if_neg ha]
    simp [List.nodup_append, h, ha]

theorem mem_foldl_setAdd (l : List String) (s : List String) (x : String) :
    x ∈ l.foldl setAdd s ↔ x ∈ s ∨ x ∈ l := by
  induction l generalizing s with
  | nil => simp
  | cons a t ih =>
    simp only [List.foldl_cons]
    rw [ih, mem_setAdd, List.mem_cons]
    tauto

theorem nodup_foldl_setAdd (l s : List String) (h : s.Nodup) : (l.foldl setAdd s).Nodup := by
  induction l generalizing s with
  | nil => exact h
  | cons a t ih => exact ih _ (nodup_setAdd s a h)

theorem mem_setOfList (l : List String) (x : String) : x ∈ setOfList l ↔ x ∈ l := by
  unfold setOfList
  rw [mem_foldl_setAdd]
  simp

theorem nodup_setOfList (l : List String) : (setOfList l).Nodup :=
  nodup_foldl_setAdd l [] List.nodup_nil

theorem mem_mapKeys_mapSet {β : Type} (m : List (String × β)) (k kk : String) (v : β) :
    k ∈ mapKeys (mapSet m kk v) ↔ k ∈ mapKeys m ∨ k = kk := by
  unfold mapSet mapKeys
  by_cases h : m.any (fun p => p.1 == kk) = true
  · rw [if_pos h]
    rcases List.any_eq_true.mp h with ⟨q, hq, hqk⟩
    have hq1 : q.1 = kk := by simpa using hqk
    rw [List.map_map, List.mem_map]
    constructor
    · rintro ⟨p, hp, hpk⟩
      simp only [Function.comp_apply] at hpk
      by_cases hcase : p.1 = kk
      · rw [if_pos (by simpa using hcase)] at hpk
        right
        exact hpk.symm
      · rw [if_neg (by simpa using hcase)] at hpk
        left
        exact List.mem_map.mpr ⟨p, hp, hpk⟩
    · rintro (hk | rfl)
      · rcases List.mem_map.mp hk with ⟨p, hp, hpk⟩
        refine ⟨p, hp, ?_⟩
        simp only [Function.comp_apply]
        by_cases hcase : p.1 = kk
        · rw [if_pos (by simpa using hcase)]
          rw [← hpk, hcase]
        · rw [if_neg (by simpa using hcase)]
          exact hpk
      · refine ⟨q, hq, ?_⟩
        simp only [Function.comp_apply]
        rw [if_pos (by simpa using hq1)]
  · rw [if_neg h]
    simp [List.mem_append]

theorem mem_mapKeys_foldl_stacks (l : List Stack) (m : List (String × IndexedStack))
    (k : String) :
    k ∈ mapKeys (l.foldl (fun m s => mapSet m s.name (indexStack s)) m) ↔
      k ∈ mapKeys m ∨ k ∈ l.map (fun s => s.name) := by
  induction l generalizing m with
  | nil => simp
  | cons s t ih =>
    simp only [List.foldl_cons, List.map_cons, List.mem_cons]
    rw [ih, mem_mapKeys_mapSet]
    tauto

theorem indexReport_stacks_def (r : CostReport) :
    (indexReport r).stacks = r.stacks.foldl (fun m s => mapSet m s.name (indexStack s)) [] :=
  rfl

theorem mem_indexReport_keys (r : CostReport) (k : String) :
    k ∈ mapKeys (indexReport r).stacks ↔ k ∈ r.stacks.map (fun s => s.name) := by
  rw [indexReport_stacks_def, mem_mapKeys_foldl_stacks]
  simp [mapKeys]

theorem itemLe_trans (a b c : ItemDelta) (hab : itemLe a b = true) (hbc : itemLe b c = true) :
    itemLe a c = true := by
  simp only [itemLe, decide_eq_true_eq] at *
  exact le_trans hbc hab

theorem itemLe_total (a b : ItemDelta) : (itemLe a b || itemLe b a) = true := by
  simp only [itemLe, Bool.or_eq_true, decide_eq_true_eq]
  exact le_total _ _

theorem stackLe_trans (a b c : StackDelta) (hab : stackLe a b = true)
    (hbc : stackLe b c = true) : stackLe a c = true := by
  simp only [stackLe, decide_eq_true_eq] at *
  exact le_trans hbc hab

theorem stackLe_total (a b : StackDelta) : (stackLe a b || stackLe b a) = true := by
  simp only [stackLe, Bool.or_eq_true, decide_eq_true_eq]
  exact le_total _ _

theorem filter_mergeSort_ties {α : Type} (le : α → α → Bool)
    (htr : ∀ a b c, le a b = true → le b c = true → le a c = true)
    (hto : ∀ a b, (le a b || le b a) = true)
    (p : α → Bool) (hp : ∀ x y, p x = true → p y = true → le x y = true)
    (l : List α) : (l.mergeSort le).filter p = l.filter p := by
  have hpw : (l.filter p).Pairwise (fun a b => le a b = true) :=
    List.pairwise_of_forall_mem_list fun a ha b hb =>
      hp a b (List.mem_filter.mp ha).2 (List.mem_filter.mp hb).2
  have hsub : (l.filter p).Sublist (l.mergeSort le) :=
    List.sublist_mergeSort htr hto hpw (List.filter_sublist l)
  have h3 : (l.filter p).filter p = l.filter p :=
    List.filter_eq_self.mpr fun a ha => (List.mem_filter.mp ha).2
  have hsub2 : (l.filter p).Sublist ((l.mergeSort le).filter p) := by
    have h2 := List.Sublist.filter p hsub
    rwa [h3] at h2
  have hperm : ((l.mergeSort le).filter p).Perm (l.filter p) :=
    (List.mergeSort_perm l le).filter p
  exact (hsub2.eq_of_length hperm.length_eq.symm).symm

theorem computeDelta_stacks_def (b h : CostReport) :
    (computeDelta b h).stacks =
      (stacksDeltaUnsorted (indexReport b) (indexReport h)).mergeSort stackLe :=
  rfl

theorem computeDelta_total_def (b h : CostReport) :
    (computeDelta b h).total =
      { base := (indexReport b).total, head := (indexReport h).total,
        diff := (indexReport h).total - (indexReport b).total } :=
  rfl

theorem stackDeltaFor_stackName (base head : IndexedReport) (n : String) :
    (stackDeltaFor base head n).stackName = n :=
  rfl

theorem stackDeltaFor_base (base head : IndexedReport) (n : String) :
    (stackDeltaFor base head n).base = ((mapGet base.stacks n).map (fun s => s.total)).getD 0 :=
  rfl

theorem stackDeltaFor_head (base head : IndexedReport) (n : String) :
    (stackDeltaFor base head n).head = ((mapGet head.stacks n).map (fun s => s.total)).getD 0 :=
  rfl

theorem stackDeltaFor_diff (base head : IndexedReport) (n : String) :
    (stackDeltaFor base head n).diff =
      ((mapGet head.stacks n).map (fun s => s.total)).getD 0 -
        ((mapGet base.stacks n).map (fun s => s.total)).getD 0 :=
  rfl

theorem stackDeltaFor_items (base head : IndexedReport) (n : String) :
    (stackDeltaFor base head n).items =
      (buildItems (mapGet base.stacks n) (mapGet head.stacks n) n
        (itemKeyUnion (mapGet base.stacks n) (mapGet head.stacks n))).mergeSort itemLe :=
  rfl

theorem mem_computeDelta_stacks (b h : CostReport) (sd : StackDelta) :
    sd ∈ (computeDelta b h).stacks ↔
      ∃ n ∈ stackNamesUnion (indexReport b) (indexReport h),
        stackDeltaFor (indexReport b) (indexReport h) n = sd := by
  rw [computeDelta_stacks_def, List.mem_mergeSort]
  unfold stacksDeltaUnsorted
  exact List.mem_map

/-- C2: a stack name occurs in the stack-delta sequence of computeDelta exactly once when
it is a stack name of the base report, of the head report, or of both (the union), and
zero times otherwise; in particular unchanged stacks still appear. -/
theorem computeDelta_stack_union (b h : CostReport) (n : String) :
    ((computeDelta b h).stacks.map (fun sd => sd.stackName)).count n =
      if n ∈ b.stacks.map (fun s => s.name) ∨ n ∈ h.stacks.map (fun s => s.name)
      then 1 else 0 := by
  have hperm : ((computeDelta b h).stacks.map (fun sd => sd.stackName)).Perm
      ((stacksDeltaUnsorted (indexReport b) (indexReport h)).map (fun sd => sd.stackName)) := by
    rw [computeDelta_stacks_def]
    exact List.Perm.map _ (List.mergeSort_perm _ _)
  rw [hperm.count_eq]
  have hmap : (stacksDeltaUnsorted (indexReport b) (indexReport h)).map
      (fun sd => sd.stackName) = stackNamesUnion (indexReport b) (indexReport h) := by
    unfold stacksDeltaUnsorted
    rw [List.map_map]
    have hcomp : ((fun sd => sd.stackName) ∘
        stackDeltaFor (indexReport b) (indexReport h)) = id := by
      funext m
      rfl
    rw [hcomp, List.map_id]
  rw [hmap]
  have hmem : n ∈ stackNamesUnion (indexReport b) (indexReport h) ↔
      n ∈ b.stacks.map (fun s => s.name) ∨ n ∈ h.stacks.map (fun s => s.name) := by
    unfold stackNamesUnion
    rw [mem_setOfList, List.mem_append, mem_indexReport_keys, mem_indexReport_keys]
  by_cases hcase : n ∈ b.stacks.map (fun s => s.name) ∨ n ∈ h.stacks.map (fun s => s.name)
  · rw [if_pos hcase]
    exact List.count_eq_one_of_mem (nodup_setOfList _) (hmem.mpr hcase)
  · rw [if_neg hcase]
    exact List.count_eq_zero_of_not_mem (fun hx => hcase (hmem.mp hx))

theorem buildItems_self_nil (bs : Option IndexedStack) (n : String) (keys : List String) :
    buildItems bs bs n keys = [] := by
  induction keys with
  | nil => rfl
  | cons key rest ih =>
    simp only [buildItems, sub_self, if_pos]
    exact ih

/-- C1 (amended): computing the delta of a report against itself yields total diff 0, and
every emitted stack delta has diff 0 and an empty item-delta list; the stack-delta
sequence itself is not empty in general, since one entry is emitted per union stack name. -/
theorem computeDelta_self (r : CostReport) :
    (computeDelta r r).total.diff = 0 ∧
    ∀ sd ∈ (computeDelta r r).stacks, sd.diff = 0 ∧ sd.items = [] := by
  constructor
  · rw [computeDelta_total_def]
    exact sub_self _
  · intro sd hsd
    rcases (mem_computeDelta_stacks r r sd).mp hsd with ⟨n, _, rfl⟩
    constructor
    · rw [stackDeltaFor_diff]
      exact sub_self _
    · rw [stackDeltaFor_items, buildItems_self_nil, List.mergeSort_nil]

/-- A one-stack report used as the counterexample input for the identity claim. -/
def rOneStack : CostReport :=
  { grand_total_usd := none
    «stacks» := [{ name := "A", total_monthly_usd := some 1, items := [] }] }

/-- C1 counterexample: the delta of the one-stack report against itself has a non-empty
stack-delta sequence, contradicting that computeDelta of identical reports yields an
empty stack-delta sequence. -/
theorem computeDelta_self_stacks_not_nil :
    (computeDelta rOneStack rOneStack).stacks ≠ [] := by
  intro hnil
  have hlen := congrArg List.length hnil
  rw [computeDelta_stacks_def, List.length_mergeSort] at hlen
  unfold stacksDeltaUnsorted at hlen
  rw [List.length_map] at hlen
  have hu : stackNamesUnion (indexReport rOneStack) (indexReport rOneStack) = ["A"] := by
    decide
  rw [hu] at hlen
  simp at hlen

/-- C1 witness: the amended identity property evaluated at the one-stack report: total
diff 0, and the single emitted stack delta has diff 0 and no item deltas. -/
theorem computeDelta_self_witness :
    (computeDelta rOneStack rOneStack).total.diff = 0 ∧
    (stackDeltaFor (indexReport rOneStack) (indexReport rOneStack) "A").diff = 0 ∧
    (stackDeltaFor (indexReport rOneStack) (indexReport rOneStack) "A").items = [] := by
  refine ⟨(computeDelta_self rOneStack).1, ?_⟩
  have hmem : stackDeltaFor (indexReport rOneStack) (indexReport rOneStack) "A" ∈
      (computeDelta rOneStack rOneStack).stacks := by
    rw [mem_computeDelta_stacks]
    refine ⟨"A", ?_, rfl⟩
    decide
  exact (computeDelta_self rOneStack).2 _ hmem

/-- Spec-side item emission rule, following the spec: for an identity key, resolve the
base and head values with a missing side costed 0, and emit an item delta exactly when
head minus base is not 0, with base, head and diff fields equal to the resolved values
and the difference. -/
def specEmitItem (bs hs : Option IndexedStack) (stackName key : String) : Option ItemDelta :=
  if costOf hs key - costOf bs key = 0 then none
  else some
    { service := (splitKey key).1
      logicalId := (splitKey key).2
      cdkPath := resolveCdkPath ((itemAt hs key).bind (fun it => it.cdk_path))
        ((itemAt bs key).bind (fun it => it.cdk_path))
      base := costOf bs key
      head := costOf hs key
      diff := costOf hs key - costOf bs key
      notes := resolveNotes ((itemAt hs key).bind (fun it => it.notes))
        ((itemAt bs key).bind (fun it => it.notes))
      stackName := stackName }

/-- Spec-side item-delta list of one stack: one emission attempt per union identity key. -/
def specStackItems (bs hs : Option IndexedStack) (stackName : String) : List ItemDelta :=
  (itemKeyUnion bs hs).filterMap (specEmitItem bs hs stackName)

theorem buildItems_eq_filterMap (bs hs : Option IndexedStack) (n : String)
    (keys : List String) :
    buildItems bs hs n keys = keys.filterMap (specEmitItem bs hs n) := by
  induction keys with
  | nil => rfl
  | cons key rest ih =>
    simp only [buildItems, specEmitItem, costOf, List.filterMap_cons]
    by_cases hd : ((itemAt hs key).map (fun it => it.monthly_usd)).getD 0 -
        ((itemAt bs key).map (fun it => it.monthly_usd)).getD 0 = 0
    · rw [if_pos hd, if_pos hd]
      exact ih
    · rw [if_neg hd, if_neg hd]
      rw [ih]

/-- C3: for every pair of reports, each emitted stack delta's item list is a permutation
of the spec-side list that, for every union identity key with a missing side costed 0,
emits an item delta exactly when head minus base is non-zero, with base, head and diff
fields equal to the resolved base value, the resolved head value and their difference. -/
theorem computeDelta_item_emission (b h : CostReport) (sd : StackDelta)
    (hsd : sd ∈ (computeDelta b h).stacks) :
    sd.items.Perm (specStackItems (mapGet (indexReport b).stacks sd.stackName)
      (mapGet (indexReport h).stacks sd.stackName) sd.stackName) := by
  rcases (mem_computeDelta_stacks b h sd).mp hsd with ⟨n, _, rfl⟩
  rw [stackDeltaFor_items, stackDeltaFor_stackName]
  unfold specStackItems
  rw [← buildItems_eq_filterMap]
  exact List.mergeSort_perm _ _

/-- The single base-only item of the missing-side example. -/
def itC3 : ResourceItem := ⟨"EC2", "i-1", 10, none, none⟩

/-- Base report of the missing-side example: one stack A with one item of cost 10. -/
def bC3 : CostReport := ⟨some 10, [⟨"A", some 10, [itC3]⟩]⟩

/-- Head report of the missing-side example: no stacks at all. -/
def hC3 : CostReport := ⟨some 0, []⟩

/-- C3 witness: the emission property applied to the concrete pair where stack A exists
only in base with one item of cost 10; the emitted stack delta is base 10, head 0,
diff -10 with exactly one item delta base 10, head 0, diff -10. -/
theorem computeDelta_item_emission_witness :
    (stackDeltaFor (indexReport bC3) (indexReport hC3) "A").items.Perm
      (specStackItems (mapGet (indexReport bC3).stacks "A")
        (mapGet (indexReport hC3).stacks "A") "A") ∧
    stackDeltaFor (indexReport bC3) (indexReport hC3) "A" =
      ⟨"A", 10, 0, -10, [⟨"EC2", "i-1", none, 10, 0, -10, [], "A"⟩]⟩ := by
  constructor
  · have hmem : stackDeltaFor (indexReport bC3) (indexReport hC3) "A" ∈
        (computeDelta bC3 hC3).stacks := by
      rw [mem_computeDelta_stacks]
      refine ⟨"A", ?_, rfl⟩
      decide
    exact computeDelta_item_emission bC3 hC3 _ hmem
  · norm_num [stackDeltaFor, indexReport, indexStack, buildItemMap, mapSet, mapGet,
      mapKeys, itemKey, setOfList, setAdd, itemKeyUnion, itemAt, buildItems, splitKey,
      jsSplit, splitOnChar, resolveCdkPath, resolveNotes, jsStrOr, itemLe,
      List.mergeSort, List.merge, bC3, hC3, itC3]
    decide

/-- C4: the stack-delta sequence of computeDelta is pairwise sorted by descending
absolute diff, every stack's item-delta list is pairwise sorted by descending absolute
diff, and both sorts are stable: each class of entries sharing one absolute diff value
keeps exactly its union-enumeration order. -/
theorem computeDelta_sort_order (b h : CostReport) :
    ((computeDelta b h).stacks.Pairwise (fun x y => |y.diff| ≤ |x.diff|)) ∧
    (∀ sd ∈ (computeDelta b h).stacks,
      sd.items.Pairwise (fun x y => |y.diff| ≤ |x.diff|)) ∧
    (∀ c : ℚ, ((computeDelta b h).stacks).filter (fun sd => decide (|sd.diff| = c)) =
      (stacksDeltaUnsorted (indexReport b) (indexReport h)).filter
        (fun sd => decide (|sd.diff| = c))) ∧
    (∀ sd ∈ (computeDelta b h).stacks, ∀ c : ℚ,
      sd.items.filter (fun d => decide (|d.diff| = c)) =
        (buildItems (mapGet (indexReport b).stacks sd.stackName)
          (mapGet (indexReport h).stacks sd.stackName) sd.stackName
          (itemKeyUnion (mapGet (indexReport b).stacks sd.stackName)
            (mapGet (indexReport h).stacks sd.stackName))).filter
          (fun d => decide (|d.diff| = c))) := by
  refine ⟨?_, ?_, ?_, ?_⟩
  · rw [computeDelta_stacks_def]
    have hs := List.sorted_mergeSort stackLe_trans stackLe_total
      (stacksDeltaUnsorted (indexReport b) (indexReport h))
    exact hs.imp (fun hab => by simpa [stackLe] using hab)
  · intro sd hsd
    rcases (mem_computeDelta_stacks b h sd).mp hsd with ⟨n, _, rfl⟩
    rw [stackDeltaFor_items]
    have hs := List.sorted_mergeSort itemLe_trans itemLe_total
      (buildItems (mapGet (indexReport b).stacks n) (mapGet (indexReport h).stacks n) n
        (itemKeyUnion (mapGet (indexReport b).stacks n) (mapGet (indexReport h).stacks n)))
    exact hs.imp (fun hab => by simpa [itemLe] using hab)
  · intro c
    rw [computeDelta_stacks_def]
    refine filter_mergeSort_ties stackLe stackLe_trans stackLe_total _ ?_ _
    intro x y hx hy
    simp only [decide_eq_true_eq] at hx hy
    simp only [stackLe, decide_eq_true_eq, hx, hy, le_refl]
  · intro sd hsd c
    rcases (mem_computeDelta_stacks b h sd).mp hsd with ⟨n, _, rfl⟩
    rw [stackDeltaFor_items, stackDeltaFor_stackName]
    refine filter_mergeSort_ties itemLe itemLe_trans itemLe_total _ ?_ _
    intro x y hx hy
    simp only [decide_eq_true_eq] at hx hy
    simp only [itemLe, decide_eq_true_eq, hx, hy, le_refl]

/-- Base report of the sort-stability example: one stack with items X, Y, Z of cost 0. -/
def b4 : CostReport :=
  ⟨some 0, [⟨"S", some 0, [⟨"svc", "X", 0, none, none⟩, ⟨"svc", "Y", 0, none, none⟩,
    ⟨"svc", "Z", 0, none, none⟩]⟩]⟩

/-- Head report of the sort-stability example: the same items with costs 5, 5, 10. -/
def h4 : CostReport :=
  ⟨some 20, [⟨"S", some 20, [⟨"svc", "X", 5, none, none⟩, ⟨"svc", "Y", 5, none, none⟩,
    ⟨"svc", "Z", 10, none, none⟩]⟩]⟩

/-- The indexed form of the single stack of b4. -/
def bs4 : IndexedStack :=
  ⟨"S", 0, [("svc|X", ⟨"svc", "X", 0, none, none⟩), ("svc|Y", ⟨"svc", "Y", 0, none, none⟩),
    ("svc|Z", ⟨"svc", "Z", 0, none, none⟩)]⟩

/-- The indexed form of the single stack of h4. -/
def hs4 : IndexedStack :=
  ⟨"S", 20, [("svc|X", ⟨"svc", "X", 5, none, none⟩), ("svc|Y", ⟨"svc", "Y", 5, none, none⟩),
    ("svc|Z", ⟨"svc", "Z", 10, none, none⟩)]⟩

/-- C4 witness: on the concrete pair with items enumerated X (diff 5), Y (diff 5),
Z (diff 10), the emitted item order is Z, X, Y: descending magnitude with the stable
tie-break preserving enumeration order. -/
theorem computeDelta_sort_order_witness :
    ((stackDeltaFor (indexReport b4) (indexReport h4) "S").items.Pairwise
      (fun x y => |y.diff| ≤ |x.diff|)) ∧
    (stackDeltaFor (indexReport b4) (indexReport h4) "S").items.map
      (fun d => d.logicalId) = ["Z", "X", "Y"] := by
  constructor
  · apply (computeDelta_sort_order b4 h4).2.1
    rw [mem_computeDelta_stacks]
    exact ⟨"S", by decide, rfl⟩
  · have hbs : mapGet (indexReport b4).stacks "S" = some bs4 := by decide
    have hhs : mapGet (indexReport h4).stacks "S" = some hs4 := by decide
    have hkeys : itemKeyUnion (some bs4) (some hs4) = ["svc|X", "svc|Y", "svc|Z"] := by
      decide
    have hsX : splitKey "svc|X" = ("svc", "X") := by decide
    have hsY : splitKey "svc|Y" = ("svc", "Y") := by decide
    have hsZ : splitKey "svc|Z" = ("svc", "Z") := by decide
    have hbX : itemAt (some bs4) "svc|X" = some ⟨"svc", "X", 0, none, none⟩ := by decide
    have hbY : itemAt (some bs4) "svc|Y" = some ⟨"svc", "Y", 0, none, none⟩ := by decide
    have hbZ : itemAt (some bs4) "svc|Z" = some ⟨"svc", "Z", 0, none, none⟩ := by decide
    have hhX : itemAt (some hs4) "svc|X" = some ⟨"svc", "X", 5, none, none⟩ := by decide
    have hhY : itemAt (some hs4) "svc|Y" = some ⟨"svc", "Y", 5, none, none⟩ := by decide
    have hhZ : itemAt (some hs4) "svc|Z" = some ⟨"svc", "Z", 10, none, none⟩ := by decide
    have hbuild : buildItems (some bs4) (some hs4) "S" ["svc|X", "svc|Y", "svc|Z"] =
        [⟨"svc", "X", none, 0, 5, 5, [], "S"⟩, ⟨"svc", "Y", none, 0, 5, 5, [], "S"⟩,
          ⟨"svc", "Z", none, 0, 10, 10, [], "S"⟩] := by
      norm_num [buildItems, hbX, hbY, hbZ, hhX, hhY, hhZ, resolveCdkPath, resolveNotes,
        jsStrOr, hsX, hsY, hsZ]
    have hitems : (stackDeltaFor (indexReport b4) (indexReport h4) "S").items =
        [⟨"svc", "Z", none, 0, 10, 10, [], "S"⟩, ⟨"svc", "X", none, 0, 5, 5, [], "S"⟩,
          ⟨"svc", "Y", none, 0, 5, 5, [], "S"⟩] := by
      rw [stackDeltaFor_items, hbs, hhs, hkeys, hbuild]
      norm_num [List.mergeSort, List.merge, itemLe]
    rw [hitems]
    decide

/-- A string option filtered to present-and-non-empty, used by the amended path rule. -/
def nonEmptyPath : Option String → Option String
  | some s => if s = "" then none else some s
  | none => none

/-- Spec-side (amended) cdk-path rule: the head path when present and non-empty, else
the base path when present and non-empty, else absent. -/
def specResolvePath (hp bp : Option String) : Option String :=
  match nonEmptyPath hp with
  | some s => some s
  | none => nonEmptyPath bp

theorem resolveCdkPath_eq_spec (hp bp : Option String) :
    resolveCdkPath hp bp = specResolvePath hp bp := by
  cases hp with
  | none =>
    cases bp with
    | none => rfl
    | some t =>
      by_cases h2 : t = "" <;>
        simp [resolveCdkPath, specResolvePath, jsStrOr, nonEmptyPath, h2]
  | some s =>
    by_cases h : s = ""
    · cases bp with
      | none => simp [resolveCdkPath, specResolvePath, jsStrOr, nonEmptyPath, h]
      | some t =>
        by_cases h2 : t = "" <;>
          simp [resolveCdkPath, specResolvePath, jsStrOr, nonEmptyPath, h, h2]
    · simp [resolveCdkPath, specResolvePath, jsStrOr, nonEmptyPath, h]

/-- C8 (amended): every emitted item delta resolves its cdkPath to the head item's path
when present and non-empty, else the base item's path when present and non-empty, else
absent (JavaScript truthiness treats the empty string as absent); and resolves its notes
to the head item's notes when present, else the base item's notes, else the empty
sequence — relative to a union identity key of its stack. -/
theorem itemDelta_path_notes (b h : CostReport) (sd : StackDelta) (d : ItemDelta)
    (hsd : sd ∈ (computeDelta b h).stacks) (hd : d ∈ sd.items) :
    ∃ key ∈ itemKeyUnion (mapGet (indexReport b).stacks sd.stackName)
        (mapGet (indexReport h).stacks sd.stackName),
      d.cdkPath = specResolvePath
        ((itemAt (mapGet (indexReport h).stacks sd.stackName) key).bind
          (fun it => it.cdk_path))
        ((itemAt (mapGet (indexReport b).stacks sd.stackName) key).bind
          (fun it => it.cdk_path)) ∧
      d.notes = resolveNotes
        ((itemAt (mapGet (indexReport h).stacks sd.stackName) key).bind
          (fun it => it.notes))
        ((itemAt (mapGet (indexReport b).stacks sd.stackName) key).bind
          (fun it => it.notes)) := by
  rcases (mem_computeDelta_stacks b h sd).mp hsd with ⟨n, _, rfl⟩
  rw [stackDeltaFor_items, List.mem_mergeSort, buildItems_eq_filterMap] at hd
  rw [stackDeltaFor_stackName]
  rcases List.mem_filterMap.mp hd with ⟨key, hkey, hemit⟩
  unfold specEmitItem at hemit
  by_cases hc : costOf (mapGet (indexReport h).stacks n) key -
      costOf (mapGet (indexReport b).stacks n) key = 0
  · rw [if_pos hc] at hemit
    exact Option.noConfusion hemit
  · rw [if_neg hc] at hemit
    have hd2 := Option.some.inj hemit
    refine ⟨key, hkey, ?_, ?_⟩
    · rw [← hd2]
      exact resolveCdkPath_eq_spec _ _
    · rw [← hd2]

/-- Base report of the empty-path example: stack A, one item of cost 1 with a cdk path. -/
def b8 : CostReport :=
  ⟨some 1, [⟨"A", some 1, [⟨"EC2", "i-1", 1, some "base/path", none⟩]⟩]⟩

/-- Head report of the empty-path example: the same item with cost 2 and an empty-string
cdk path, which is present but falsy. -/
def h8 : CostReport :=
  ⟨some 2, [⟨"A", some 2, [⟨"EC2", "i-1", 2, some "", none⟩]⟩]⟩

/-- C8 counterexample: the head item's cdk path is present (the empty string), yet the
emitted item delta carries the base item's path: resolution follows JavaScript
truthiness, not field presence as the claim states. -/
theorem itemDelta_path_counterexample :
    ((computeDelta b8 h8).stacks.map (fun sd => sd.items.map (fun d => d.cdkPath))) =
      [[some "base/path"]] ∧
    (h8.stacks.map (fun s => s.items.map (fun it => it.cdk_path))) = [[some ""]] := by
  constructor
  · norm_num [computeDelta, stacksDeltaUnsorted, stackNamesUnion, stackDeltaFor,
      indexReport, indexStack, buildItemMap, mapSet, mapGet, mapKeys, itemKey, setOfList,
      setAdd, itemKeyUnion, itemAt, buildItems, splitKey, jsSplit, splitOnChar,
      resolveCdkPath, resolveNotes, jsStrOr, itemLe, stackLe,
      List.mergeSort, List.merge, b8, h8]
    decide
  · decide

/-- C8 witness: the amended resolution applied to the concrete empty-path pair: the
single emitted item delta resolves cdkPath to the base path and notes to the empty
sequence, relative to the single union key. -/
theorem itemDelta_path_notes_witness :
    ∃ key ∈ itemKeyUnion (mapGet (indexReport b8).stacks "A")
        (mapGet (indexReport h8).stacks "A"),
      (⟨"EC2", "i-1", some "base/path", 1, 2, 1, [], "A"⟩ : ItemDelta).cdkPath =
        specResolvePath
          ((itemAt (mapGet (indexReport h8).stacks "A") key).bind (fun it => it.cdk_path))
          ((itemAt (mapGet (indexReport b8).stacks "A") key).bind (fun it => it.cdk_path)) ∧
      (⟨"EC2", "i-1", some "base/path", 1, 2, 1, [], "A"⟩ : ItemDelta).notes =
        resolveNotes
          ((itemAt (mapGet (indexReport h8).stacks "A") key).bind (fun it => it.notes))
          ((itemAt (mapGet (indexReport b8).stacks "A") key).bind (fun it => it.notes)) := by
  have hmem : stackDeltaFor (indexReport b8) (indexReport h8) "A" ∈
      (computeDelta b8 h8).stacks := by
    rw [mem_computeDelta_stacks]
    exact ⟨"A", by decide, rfl⟩
  have hitems : (stackDeltaFor (indexReport b8) (indexReport h8) "A").items =
      [⟨"EC2", "i-1", some "base/path", 1, 2, 1, [], "A"⟩] := by
    norm_num [stackDeltaFor, indexReport, indexStack, buildItemMap, mapSet, mapGet,
      mapKeys, itemKey, setOfList, setAdd, itemKeyUnion, itemAt, buildItems, splitKey,
      jsSplit, splitOnChar, resolveCdkPath, resolveNotes, jsStrOr, itemLe,
      List.mergeSort, List.merge, b8, h8]
    decide
  have hd : (⟨"EC2", "i-1", some "base/path", 1, 2, 1, [], "A"⟩ : ItemDelta) ∈
      (stackDeltaFor (indexReport b8) (indexReport h8) "A").items := by
    rw [hitems]
    exact List.mem_singleton.mpr rfl
  exact itemDelta_path_notes b8 h8 _ _ hmem hd

theorem foldl_add_totals (l : List IndexedStack) (a : ℚ) :
    l.foldl (fun sum s => sum + s.total) a = a + (l.map (fun s => s.total)).sum := by
  induction l generalizing a with
  | nil => simp
  | cons s t ih =>
    simp only [List.foldl_cons, List.map_cons, List.sum_cons]
    rw [ih, add_assoc]

theorem mapKeys_not_mem_any {β : Type} (m : List (String × β)) (k : String)
    (h : k ∉ mapKeys m) : m.any (fun p => p.1 == k) = false := by
  rw [List.any_eq_false]
  intro p hp
  simp only [beq_iff_eq]
  intro hpk
  exact h (List.mem_map.mpr ⟨p, hp, hpk⟩)

theorem mapSet_append_of_not_mem {β : Type} (m : List (String × β)) (k : String) (v : β)
    (h : k ∉ mapKeys m) : mapSet m k v = m ++ [(k, v)] := by
  unfold mapSet
  rw [mapKeys_not_mem_any m k h]
  simp

theorem foldl_mapSet_stacks (l : List Stack) (m : List (String × IndexedStack))
    (hnd : (l.map (fun s => s.name)).Nodup)
    (hdis : ∀ s ∈ l, s.name ∉ mapKeys m) :
    l.foldl (fun m s => mapSet m s.name (indexStack s)) m =
      m ++ l.map (fun s => (s.name, indexStack s)) := by
  induction l generalizing m with
  | nil => simp
  | cons s t ih =>
    rw [List.map_cons, List.nodup_cons] at hnd
    simp only [List.foldl_cons, List.map_cons]
    rw [mapSet_append_of_not_mem m s.name (indexStack s) (hdis s (List.mem_cons_self s t))]
    rw [ih]
    · simp
    · exact hnd.2
    · intro s2 hs2
      simp only [mapKeys, List.map_append, List.mem_append, List.map_cons, List.map_nil,
        List.mem_singleton]
      rintro (hmem | hmem)
      · exact hdis s2 (List.mem_cons_of_mem s hs2) hmem
      · exact hnd.1 (hmem ▸ List.mem_map.mpr ⟨s2, hs2, rfl⟩)

theorem indexReport_total_def (r : CostReport) :
    (indexReport r).total =
      match r.grand_total_usd with
      | some t => t
      | none => ((r.stacks.foldl (fun m s => mapSet m s.name (indexStack s)) []).map
          (fun p => p.2)).foldl (fun sum s => sum + s.total) 0 :=
  rfl

/-- C5: for a report with distinct stack names, indexing resolves the grand total as the
declared grand total when present (including an explicit 0), and otherwise as the sum of
the per-stack declared totals, a missing per-stack total counting as 0. -/
theorem indexReport_total_resolution (r : CostReport)
    (hnd : (r.stacks.map (fun s => s.name)).Nodup) :
    (∀ t, r.grand_total_usd = some t → (indexReport r).total = t) ∧
    (r.grand_total_usd = none →
      (indexReport r).total =
        (r.stacks.map (fun s => s.total_monthly_usd.getD 0)).sum) := by
  constructor
  · intro t ht
    rw [indexReport_total_def, ht]
  · intro hnone
    rw [indexReport_total_def, hnone]
    have hfold := foldl_mapSet_stacks r.stacks [] hnd (fun s _ => by simp [mapKeys])
    rw [hfold, List.nil_append, List.map_map, foldl_add_totals, List.map_map, zero_add]
    have hfun : ((fun s => s.total) ∘ (fun p => p.2) ∘
        (fun s => (s.name, indexStack s))) = fun s => s.total_monthly_usd.getD 0 := by
      funext s
      rfl
    rw [hfun]

/-- The grand-total fallback example: no grand total, stacks with totals 3.50 and 1.50. -/
def r5 : CostReport := ⟨none, [⟨"S1", some 3.5, []⟩, ⟨"S2", some 1.5, []⟩]⟩

/-- C5 witness: the resolution applied to the concrete report without a grand total:
the resolved total is 5.00. -/
theorem indexReport_total_resolution_witness : (indexReport r5).total = 5 := by
  have h := (indexReport_total_resolution r5 (by decide)).2 rfl
  rw [h]
  norm_num [r5]

/-- Spec-side fixed head section of the rendering: marker, heading and totals table. -/
def specHeadLines (delta : Delta) (commentTitle : String) : List String :=
  ["<!-- cloudcostgh-comment -->", "## " ++ commentTitle, "",
   "**Total monthly cost**", "",
   "|        | Base | Head | Δ |",
   "|--------|------|------|---|",
   amountRow delta.total, ""]

/-- Spec-side flattening of all stacks' item deltas into one list. -/
def specAllItems (delta : Delta) : List ItemDelta :=
  delta.stacks.flatMap (fun s => s.items)

/-- Spec-side top items: the flattened list re-sorted by descending absolute diff in an
independent second pass, truncated to the first 10. -/
def specTopItems (delta : Delta) : List ItemDelta :=
  ((specAllItems delta).mergeSort itemLe).take 10

/-- Spec-side top table section: emitted only when the top item list is non-empty, with
one row per item, in sorted order. -/
def specTopSection (delta : Delta) : List String :=
  if specTopItems delta = [] then []
  else topTableHead ++ (specTopItems delta).map itemRow ++ [""]

theorem foldl_append_eq_flatMap (l : List StackDelta) (acc : List ItemDelta) :
    l.foldl (fun acc stack => acc ++ stack.items) acc =
      acc ++ l.flatMap (fun s => s.items) := by
  induction l generalizing acc with
  | nil => simp
  | cons s t ih =>
    simp only [List.foldl_cons, List.flatMap_cons]
    rw [ih, List.append_assoc]

/-- A delta value carrying 15 non-zero item deltas across two stacks. -/
def delta15 : Delta :=
  ⟨⟨0, 120, 120⟩,
   [⟨"S1", 0, 36, 36, [⟨"svc", "a1", none, 0, 1, 1, [], "S1"⟩,
      ⟨"svc", "a2", none, 0, 2, 2, [], "S1"⟩, ⟨"svc", "a3", none, 0, 3, 3, [], "S1"⟩,
      ⟨"svc", "a4", none, 0, 4, 4, [], "S1"⟩, ⟨"svc", "a5", none, 0, 5, 5, [], "S1"⟩,
      ⟨"svc", "a6", none, 0, 6, 6, [], "S1"⟩, ⟨"svc", "a7", none, 0, 7, 7, [], "S1"⟩,
      ⟨"svc", "a8", none, 0, 8, 8, [], "S1"⟩]⟩,
    ⟨"S2", 0, 84, 84, [⟨"svc", "b1", none, 0, 9, 9, [], "S2"⟩,
      ⟨"svc", "b2", none, 0, 10, 10, [], "S2"⟩, ⟨"svc", "b3", none, 0, 11, 11, [], "S2"⟩,
      ⟨"svc", "b4", none, 0, 12, 12, [], "S2"⟩, ⟨"svc", "b5", none, 0, 13, 13, [], "S2"⟩,
      ⟨"svc", "b6", none, 0, 14, 14, [], "S2"⟩,
      ⟨"svc", "b7", none, 0, 15, 15, [], "S2"⟩]⟩]⟩

/-- C6: the renderer's line sequence is the fixed head section followed by the top-items
section, which flattens all stacks' item deltas into one list, re-sorts that whole list
by descending absolute diff in an independent second pass, takes the first 10, and emits
the table only when that list is non-empty, one row per item in sorted order; the top
list's length is the minimum of 10 and the flattened length, it is pairwise sorted, and
the concrete delta with 15 non-zero item deltas renders exactly 10 rows. -/
theorem renderMarkdown_top_ten :
    (∀ (delta : Delta) (commentTitle : String),
      renderLines delta commentTitle =
        specHeadLines delta commentTitle ++ specTopSection delta) ∧
    (∀ delta : Delta, (specTopItems delta).length = min 10 (specAllItems delta).length) ∧
    (∀ delta : Delta, (specTopItems delta).Pairwise (fun x y => |y.diff| ≤ |x.diff|)) ∧
    (specTopItems delta15).length = 10 ∧ (specAllItems delta15).length = 15 := by
  have hmin : ∀ delta : Delta,
      (specTopItems delta).length = min 10 (specAllItems delta).length := by
    intro delta
    unfold specTopItems
    rw [List.length_take, List.length_mergeSort]
  have hlen15 : (specAllItems delta15).length = 15 := by decide
  refine ⟨?_, hmin, ?_, ?_, hlen15⟩
  · intro delta commentTitle
    simp only [renderLines, specTopSection, specHeadLines]
    rw [foldl_append_eq_flatMap, List.nil_append]
    have hfold : ((delta.stacks.flatMap (fun s => s.items)).mergeSort itemLe).take 10 =
        specTopItems delta := rfl
    rw [hfold]
    by_cases hnil : specTopItems delta = []
    · rw [if_pos hnil, hnil]
      simp
    · rw [if_neg hnil, if_pos]
      exact List.length_pos.mpr hnil
  · intro delta
    unfold specTopItems
    have hs := List.sorted_mergeSort itemLe_trans itemLe_total (specAllItems delta)
    have hsub := List.Pairwise.sublist
      (List.take_sublist 10 ((specAllItems delta).mergeSort itemLe)) hs
    exact hsub.imp (fun hab => by simpa [itemLe] using hab)
  · rw [hmin delta15, hlen15]
    decide

/-- C7: for every delta and every title, the rendered markdown is the literal marker
line, a newline, and the rest of the document, so its first line is exactly the marker. -/
theorem renderMarkdown_marker (delta : Delta) (commentTitle : String) :
    ∃ rest, renderMarkdown delta commentTitle =
      "<!-- cloudcostgh-comment -->" ++ "\n" ++ rest :=
  ⟨_, rfl⟩

theorem splitOnChar_no_sep (c : Char) (l : List Char) (h : c ∉ l) :
    splitOnChar c l = [l] := by
  induction l with
  | nil => rfl
  | cons x xs ih =>
    have hx : ¬ x = c := fun hh => h (hh ▸ List.mem_cons_self x xs)
    have hxs : c ∉ xs := fun hh => h (List.mem_cons_of_mem x hh)
    simp only [splitOnChar, if_neg hx, ih hxs]

theorem splitOnChar_sep_append (c : Char) (a rest : List Char) (h : c ∉ a) :
    splitOnChar c (a ++ c :: rest) = a :: splitOnChar c rest := by
  induction a with
  | nil => simp [splitOnChar]
  | cons x xs ih =>
    have hx : ¬ x = c := fun hh => h (hh ▸ List.mem_cons_self x xs)
    have hxs : c ∉ xs := fun hh => h (List.mem_cons_of_mem x hh)
    rw [List.cons_append]
    simp only [splitOnChar, if_neg hx]
    rw [ih hxs]

theorem string_data_append (s t : String) : (s ++ t).data = s.data ++ t.data :=
  rfl

theorem splitKey_roundtrip (s lid : String) (hs : '|' ∉ s.data) (hlid : '|' ∉ lid.data) :
    splitKey (s ++ "|" ++ lid) = (s, lid) := by
  unfold splitKey jsSplit
  have hdata : (s ++ "|" ++ lid).data = s.data ++ '|' :: lid.data := by
    rw [string_data_append, string_data_append]
    simp
  rw [hdata, splitOnChar_sep_append _ _ _ hs, splitOnChar_no_sep _ _ hlid]
  simp only [List.map_cons, List.map_nil]
  rfl

/-- First collision item: service containing a pipe. -/
def itemP1 : ResourceItem := ⟨"a|b", "c", 5, none, none⟩

/-- Second collision item: a distinct pair encoding to the same identity key. -/
def itemP2 : ResourceItem := ⟨"a", "b|c", 7, none, none⟩

/-- Base report of the collision example: one stack holding both collision items. -/
def bP : CostReport := ⟨some 0, [⟨"A", some 0, [itemP1, itemP2]⟩]⟩

/-- Head report of the collision example: empty. -/
def hP : CostReport := ⟨some 0, []⟩

/-- The indexed form of the collision stack: both items merged under one identity key,
the later item winning. -/
def bsP : IndexedStack := ⟨"A", 0, [("a|b|c", itemP2)]⟩

/-- C10: the identity key is the service, a pipe and the logical id, decoded by splitting
on the pipe: every item whose service and logical id are pipe-free round-trips exactly,
while the two concrete items with pipes in their fields collide to one identity key,
are merged into one emitted item delta, and the emitted service and logicalId fields
differ from both original pairs. -/
theorem identity_key_roundtrip_collision :
    (∀ (s lid : String), '|' ∉ s.data → '|' ∉ lid.data →
      splitKey (s ++ "|" ++ lid) = (s, lid)) ∧
    itemKey itemP1 = itemKey itemP2 ∧
    (itemP1.service, itemP1.logical_id) ≠ (itemP2.service, itemP2.logical_id) ∧
    ((computeDelta bP hP).stacks.map (fun sd => sd.items.map
      (fun d => (d.service, d.logicalId)))) = [[("a", "b")]] ∧
    ("a", "b") ≠ (itemP1.service, itemP1.logical_id) ∧
    ("a", "b") ≠ (itemP2.service, itemP2.logical_id) := by
  refine ⟨splitKey_roundtrip, by decide, by decide, ?_, by decide, by decide⟩
  have hU : stackNamesUnion (indexReport bP) (indexReport hP) = ["A"] := by decide
  have hbP : mapGet (indexReport bP).stacks "A" = some bsP := by decide
  have hhP : mapGet (indexReport hP).stacks "A" = none := by decide
  have hkeys : itemKeyUnion (some bsP) (none : Option IndexedStack) = ["a|b|c"] := by
    decide
  have hAt : itemAt (some bsP) "a|b|c" = some itemP2 := by decide
  have hAtN : itemAt (none : Option IndexedStack) "a|b|c" = none := by decide
  have hsplit : splitKey "a|b|c" = ("a", "b") := by decide
  have hbuild : buildItems (some bsP) (none : Option IndexedStack) "A" ["a|b|c"] =
      [⟨"a", "b", none, 7, 0, -7, [], "A"⟩] := by
    norm_num [buildItems, hAt, hAtN, hsplit, itemP2, resolveCdkPath, resolveNotes,
      jsStrOr]
  rw [computeDelta_stacks_def]
  unfold stacksDeltaUnsorted
  rw [hU]
  simp only [List.map_cons, List.map_nil, List.mergeSort_singleton]
  rw [stackDeltaFor_items, hbP, hhP, hkeys, hbuild, List.mergeSort_singleton]
  decide

/-- C10 witness: the pipe-free round-trip evaluated at the concrete pair EC2, i-1. -/
theorem identity_key_roundtrip_witness :
    splitKey ("EC2" ++ "|" ++ "i-1") = ("EC2", "i-1") :=
  identity_key_roundtrip_collision.1 "EC2" "i-1" (by decide) (by decide)

end CloudCost
